import Mathlib

/-!
# lncli custom-message commands (`cmd/lncli/cmd_custom.go`)

A shallow embedding of the three commands `sendcustom`, `sendchannelerror` and
`subscribecustom`, and of the helper `parseOutPoint`, together with the library
routines they call.

Conventions of the embedding:

* a Go `string` and a Go `[]byte` are both a `List Nat` of byte values;
* `uint32`/`uint64` are `Nat` with an explicit `% 2 ^ w` where the code narrows,
  `int64` is `Int`;
* a Go `(T, error)` result is `Except Error T`, a bare `error` is `Option Error`
  (`none` is `nil`);
* the RPC client is a parameter; the requests a command hands to it are returned
  as a trace.
-/

namespace Lncli

/-! ## Strings and errors -/

/-- UTF-8 encoding of one code point, as Go stores a rune of a string literal. -/
def utf8Bytes (c : Nat) : List Nat :=
  if c < 0x80 then [c]
  else if c < 0x800 then [0xC0 + c / 64, 0x80 + c % 64]
  else if c < 0x10000 then [0xE0 + c / 4096, 0x80 + c / 64 % 64, 0x80 + c % 64]
  else [0xF0 + c / 262144, 0x80 + c / 4096 % 64, 0x80 + c / 64 % 64, 0x80 + c % 64]

/-- The bytes of a string literal. -/
def goString (s : String) : List Nat :=
  s.data.flatMap (fun c => utf8Bytes c.toNat)

/-- The error values the commands can return.  `ErrBadChanPoint` is the package
variable `errBadChanPoint`; `IndexErr` and `HexStringErr` are the two
`fmt.Errorf` wrappers of `parseOutPoint`; `EOF` is `io.EOF`; `Rpc` is any error
produced by the RPC layer. -/
inductive Error where
  | ErrBadChanPoint : Error
  | InvalidByteError (b : Nat) : Error
  | ErrLength : Error
  | ErrHashStrSize : Error
  | NumSyntaxErr : Error
  | NumRangeErr : Error
  | IndexErr (cause : Error) : Error
  | HexStringErr (cause : Error) : Error
  | EOF : Error
  | Rpc (code : Nat) : Error
  deriving DecidableEq, Repr

deriving instance DecidableEq for Except

/-! ## `encoding/hex` -/

/-- The value of a hexadecimal digit byte (`reverseHexTable`), `none` where the
table holds `0xff`. -/
def fromHexChar (c : Nat) : Option Nat :=
  if 48 ≤ c ∧ c ≤ 57 then some (c - 48)
  else if 97 ≤ c ∧ c ≤ 102 then some (c - 97 + 10)
  else if 65 ≤ c ∧ c ≤ 70 then some (c - 65 + 10)
  else none

/-- Go `hex.Decode`: pairs of digits become bytes; the first invalid byte is
reported, and an odd length is reported after the pairs have been checked. -/
def hex.Decode : List Nat → Except Error (List Nat)
  | [] => .ok []
  | [p] =>
    match fromHexChar p with
    | none => .error (.InvalidByteError p)
    | some _ => .error .ErrLength
  | p :: q :: rest =>
    match fromHexChar p with
    | none => .error (.InvalidByteError p)
    | some a =>
      match fromHexChar q with
      | none => .error (.InvalidByteError q)
      | some b =>
        match hex.Decode rest with
        | .error e => .error e
        | .ok bs => .ok ((a * 16 + b) :: bs)

/-- Go `hex.DecodeString`. -/
def hex.DecodeString (s : List Nat) : Except Error (List Nat) :=
  hex.Decode s

/-- The digit of `hextable = "0123456789abcdef"` at position `d`. -/
def hexDigit (d : Nat) : Nat :=
  if d < 10 then 48 + d else 97 + (d - 10)

/-- Go `hex.EncodeToString`, which is also what `%x` prints for a byte slice. -/
def hex.EncodeToString : List Nat → List Nat
  | [] => []
  | b :: bs => hexDigit (b / 16) :: hexDigit (b % 16) :: hex.EncodeToString bs

/-! ## `strings.Split` with a one-byte separator -/

/-- Go `strings.Split s sep` for a separator of one byte: the pieces between the
occurrences of `sep`, `[s]` when there is none. -/
def strings.Split (sep : Nat) : List Nat → List (List Nat)
  | [] => [[]]
  | c :: cs =>
    if c = sep then [] :: strings.Split sep cs
    else
      match strings.Split sep cs with
      | [] => [[c]]
      | p :: ps => (c :: p) :: ps

/-! ## `strconv` -/

/-- The digit loop of Go `strconv.ParseUint s 10 64`, from accumulator `n`. -/
def parseUintLoop : List Nat → Nat → Except Error Nat
  | [], n => .ok n
  | c :: cs, n =>
    if 48 ≤ c ∧ c ≤ 57 then
      let d := c - 48
      if n ≥ (2 ^ 64 - 1) / 10 + 1 then .error .NumRangeErr
      else
        let n10 := n * 10
        let n1 := (n10 + d) % 2 ^ 64
        if n1 < n10 ∨ n1 > 2 ^ 64 - 1 then .error .NumRangeErr
        else parseUintLoop cs n1
    else .error .NumSyntaxErr

/-- Go `strconv.ParseUint s 10 64`. -/
def strconv.ParseUint (s : List Nat) : Except Error Nat :=
  if s = [] then .error .NumSyntaxErr else parseUintLoop s 0

/-- Go `strconv.ParseInt s 10 64`: an optional sign, then `strconv.ParseUint`,
then the range check against `2 ^ 63`. -/
def strconv.ParseInt (s : List Nat) : Except Error Int :=
  match s with
  | [] => .error .NumSyntaxErr
  | c :: cs =>
    let neg := c = 45
    let body := if c = 43 ∨ c = 45 then cs else c :: cs
    match strconv.ParseUint body with
    | .error e => .error e
    | .ok un =>
      if ¬ neg ∧ un ≥ 2 ^ 63 then .error .NumRangeErr
      else if neg ∧ un > 2 ^ 63 then .error .NumRangeErr
      else .ok (if neg then - (un : Int) else (un : Int))

/-- The decimal digits of `n`, most significant first, in front of `acc`. -/
def formatLoop : Nat → Nat → List Nat → List Nat
  | 0, _, acc => acc
  | fuel + 1, n, acc =>
    if n < 10 then (48 + n) :: acc
    else formatLoop fuel (n / 10) ((48 + n % 10) :: acc)

/-- Go `strconv.FormatUint n 10` for a `uint64`, which has at most 20 digits. -/
def strconv.FormatUint (n : Nat) : List Nat :=
  formatLoop 20 n []

/-! ## `chainhash` and `wire` -/

/-- Go `chainhash.Decode` as called by `chainhash.NewHashFromStr`: at most 64
characters, an odd length is padded with a leading `0`, the digits are decoded
into the tail of a zeroed 32-byte array, and the array is reversed. -/
def chainhash.NewHashFromStr (src : List Nat) : Except Error (List Nat) :=
  if src.length > 64 then .error .ErrHashStrSize
  else
    let srcBytes := if src.length % 2 = 0 then src else 48 :: src
    match hex.Decode srcBytes with
    | .error e => .error e
    | .ok bs => .ok (List.replicate (32 - bs.length) 0 ++ bs).reverse

/-- Go `wire.OutPoint`. -/
structure OutPoint where
  Hash : List Nat
  Index : Nat
  deriving DecidableEq, Repr

/-- Go `chainhash.Hash.String`: the hex of the byte-reversed hash. -/
def chainhash.HashString (h : List Nat) : List Nat :=
  hex.EncodeToString h.reverse

/-- Go `wire.OutPoint.String`: the hash string, a colon, the decimal index. -/
def OutPoint.String (o : OutPoint) : List Nat :=
  chainhash.HashString o.Hash ++ [58] ++ strconv.FormatUint o.Index

/-! ## `parseOutPoint` -/

/-- The function `parseOutPoint` of `cmd_custom.go`. -/
def parseOutPoint (s : List Nat) : Except Error OutPoint :=
  let split := strings.Split 58 s
  if split.length ≠ 2 ∨ (split.getD 0 []).length = 0 ∨ (split.getD 1 []).length = 0 then
    .error .ErrBadChanPoint
  else
    match strconv.ParseInt (split.getD 1 []) with
    | .error e => .error (.IndexErr e)
    | .ok index =>
      match chainhash.NewHashFromStr (split.getD 0 []) with
      | .error e => .error (.HexStringErr e)
      | .ok txid => .ok ⟨txid, (index % 2 ^ 32).toNat⟩

/-! ## `lnwire` -/

/-- Go builtin `copy dst src`: the first `min (len dst) (len src)` elements of
`dst` are overwritten with those of `src`. -/
def copySlice (dst src : List Nat) : List Nat :=
  src.take dst.length ++ dst.drop src.length

/-- Modelled from the spec: `lnwire.NewChanIDFromOutPoint`, whose package is not
among the sources.  The 32 bytes of the transaction id are copied in their
internal order, and the last two bytes are XORed with the big-endian 16-bit
truncation of the output index. -/
def lnwire.NewChanIDFromOutPoint (op : OutPoint) : List Nat :=
  let cid := copySlice (List.replicate 32 0) op.Hash
  let outputIndex := op.Index % 2 ^ 16
  let buf0 := outputIndex / 256
  let buf1 := outputIndex % 256
  let cid30 := cid.set 30 (cid.getD 30 0 ^^^ buf0)
  cid30.set 31 (cid30.getD 31 0 ^^^ buf1)

/-- Modelled from the spec: the constant `lnwire.MsgError`, the protocol's error
message type, whose package is not among the sources. -/
def lnwire.MsgError : Nat := 17

/-! ## The RPC boundary -/

/-- Go `lnrpc.SendCustomMessageRequest`; `MsgType` is its field `Type`. -/
structure SendCustomMessageRequest where
  Peer : List Nat
  MsgType : Nat
  Data : List Nat
  deriving DecidableEq, Repr

/-- Go `lnrpc.CustomMessage`, one inbound event; `MsgType` is its field `Type`. -/
structure CustomMessage where
  Peer : List Nat
  MsgType : Nat
  Data : List Nat
  deriving DecidableEq, Repr

/-- The RPC client.  `SendCustomMessage` gives the error of the call (`none` is
`nil`).  `SubscribeCustomMessages` gives an error or a stream, and a stream is
the result of its successive `Recv` calls, numbered from 0. -/
structure Client where
  SendCustomMessage : SendCustomMessageRequest → Option Error
  SubscribeCustomMessages : Except Error (Nat → Except Error CustomMessage)

/-- The flag values of a command invocation: `ctx.String "peer"`,
`ctx.Uint64 "type"`, `ctx.String "data"` and `ctx.String "chan_point"`. -/
structure Context where
  peer : List Nat
  msgType : Nat
  data : List Nat
  chanPoint : List Nat
  deriving DecidableEq, Repr

/-! ## The commands -/

/-- The function `sendCustom`: the requests handed to the client, and the error
returned. -/
def sendCustom (client : Client) (ctx : Context) :
    List SendCustomMessageRequest × Option Error :=
  match hex.DecodeString ctx.peer with
  | .error e => ([], some e)
  | .ok peer =>
    let msgType := ctx.msgType
    match hex.DecodeString ctx.data with
    | .error e => ([], some e)
    | .ok data =>
      let req : SendCustomMessageRequest := ⟨peer, msgType % 2 ^ 32, data⟩
      ([req], client.SendCustomMessage req)

/-- The function `sendChannelError`: the requests handed to the client, and the
error returned. -/
def sendChannelError (client : Client) (ctx : Context) :
    List SendCustomMessageRequest × Option Error :=
  match hex.DecodeString ctx.peer with
  | .error e => ([], some e)
  | .ok peer =>
    match parseOutPoint ctx.chanPoint with
    | .error e => ([], some e)
    | .ok outPoint =>
      let channelID := lnwire.NewChanIDFromOutPoint outPoint
      let data := List.replicate 34 0
      let data := copySlice (data.take 32) channelID ++ data.drop 32
      let req : SendCustomMessageRequest := ⟨peer, lnwire.MsgError % 2 ^ 32, data⟩
      ([req], client.SendCustomMessage req)

/-- The line `fmt.Printf "Received from peer %x: type=%d, data=%x\n"` writes for
one message. -/
def renderMessage (msg : CustomMessage) : List Nat :=
  goString "Received from peer " ++ hex.EncodeToString msg.Peer
    ++ goString ": type=" ++ strconv.FormatUint msg.MsgType
    ++ goString ", data=" ++ hex.EncodeToString msg.Data ++ goString "\n"

/-- The `for` loop of `subscribeCustom`, about to make `Recv` call number `k`
with `out` already printed.  Each iteration uses one unit of `fuel`; `none`
means the loop is still running when the fuel is spent. -/
def recvLoop (recv : Nat → Except Error CustomMessage) :
    Nat → Nat → List (List Nat) → Option (List (List Nat) × Option Error)
  | 0, _, _ => none
  | fuel + 1, k, out =>
    match recv k with
    | .error err => some (out, some err)
    | .ok msg => recvLoop recv fuel (k + 1) (out ++ [renderMessage msg])

/-- The function `subscribeCustom`: the lines printed, and the error returned. -/
def subscribeCustom (client : Client) (fuel : Nat) :
    Option (List (List Nat) × Option Error) :=
  match client.SubscribeCustomMessages with
  | .error err => some ([], some err)
  | .ok stream => recvLoop stream fuel 0 []

/-! ## Byte classes used in the statements -/

/-- A byte is a hexadecimal digit, of either case. -/
def isHexByte (c : Nat) : Prop :=
  (48 ≤ c ∧ c ≤ 57) ∨ (97 ≤ c ∧ c ≤ 102) ∨ (65 ≤ c ∧ c ≤ 70)

instance (c : Nat) : Decidable (isHexByte c) := by
  unfold isHexByte; infer_instance

/-- A byte is a digit of `hextable`: a decimal digit or one of `a` to `f`. -/
def isLowerHexByte (c : Nat) : Prop :=
  (48 ≤ c ∧ c ≤ 57) ∨ (97 ≤ c ∧ c ≤ 102)

instance (c : Nat) : Decidable (isLowerHexByte c) := by
  unfold isLowerHexByte; infer_instance

/-- A byte is a decimal digit. -/
def isDigitByte (c : Nat) : Prop :=
  48 ≤ c ∧ c ≤ 57

instance (c : Nat) : Decidable (isDigitByte c) := by
  unfold isDigitByte; infer_instance

/-! ## Sample inputs -/

/-- A client whose node accepts every message and whose subscription ends at once
with a plain end-of-stream. -/
def acceptingClient : Client :=
  ⟨fun _ => none, .ok (fun _ => .error .EOF)⟩

/-- Three inbound events, as a subscription could deliver them. -/
def sampleEvents : List CustomMessage :=
  [⟨[2, 171], 32768, [222, 173]⟩, ⟨[3, 205], 32769, []⟩, ⟨[2, 171], 65535, [0]⟩]

/-- A client whose subscription delivers `sampleEvents` and then closes with a
plain end-of-stream. -/
def scriptedClient : Client :=
  ⟨fun _ => none, .ok (fun k =>
    match sampleEvents[k]? with
    | some e => .ok e
    | none => .error .EOF)⟩

/-- The internal bytes of the transaction id displayed as `aabb`, 56 zeros,
`ccdd`. -/
def sampleTxid : List Nat :=
  [221, 204] ++ List.replicate 28 0 ++ [187, 170]

/-- A 33-byte peer identifier in hex. -/
def samplePeerHex : List Nat :=
  goString "02abababababababababababababababababababababababababababababababab"

/-! ## Lemmas on the hex codec -/

theorem hexDecode_length (s : List Nat) :
    ∀ bs, hex.Decode s = .ok bs → bs.length * 2 = s.length := by
  induction s using hex.Decode.induct with
  | case1 => intro bs h; simp [hex.Decode] at h; subst h; rfl
  | case2 p hp => intro bs h; simp [hex.Decode, hp] at h
  | case3 p a hp => intro bs h; simp [hex.Decode, hp] at h
  | case4 p q rest hp => intro bs h; simp [hex.Decode, hp] at h
  | case5 p q rest a ha hq => intro bs h; simp [hex.Decode, ha, hq] at h
  | case6 p q rest a ha b hb e he ih => intro bs h; simp [hex.Decode, ha, hb, he] at h
  | case7 p q rest a ha b hb bs' hbs ih =>
    intro bs h
    simp [hex.Decode, ha, hb, hbs] at h
    subst h
    have := ih bs' hbs
    simp
    omega

theorem fromHexChar_eq_none_iff (c : Nat) : fromHexChar c = none ↔ ¬ isHexByte c := by
  unfold fromHexChar isHexByte
  split_ifs <;> simp <;> omega

theorem fromHexChar_of_hex (c : Nat) (h : isHexByte c) :
    ∃ a, fromHexChar c = some a ∧ a < 16 := by
  unfold isHexByte at h
  unfold fromHexChar
  split_ifs <;> simp <;> omega

theorem fromHexChar_of_lower (c : Nat) (h : isLowerHexByte c) :
    ∃ a, fromHexChar c = some a ∧ a < 16 ∧ hexDigit a = c := by
  unfold isLowerHexByte at h
  rcases h with h | h
  · refine ⟨c - 48, ?_, by omega, ?_⟩
    · simp [fromHexChar, h]
    · unfold hexDigit
      split_ifs <;> omega
  · refine ⟨c - 97 + 10, ?_, by omega, ?_⟩
    · have h1 : ¬ (48 ≤ c ∧ c ≤ 57) := by omega
      simp [fromHexChar, h, h1]
    · unfold hexDigit
      split_ifs <;> omega

/-- Decoding fails as soon as the length is odd or some byte is not a digit. -/
theorem hexDecode_error_of_bad (s : List Nat) :
    (s.length % 2 = 1 ∨ ∃ c ∈ s, ¬ isHexByte c) → ∃ e, hex.Decode s = .error e := by
  induction s using hex.Decode.induct with
  | case1 => simp
  | case2 p hp => intro _; exact ⟨.InvalidByteError p, by simp [hex.Decode, hp]⟩
  | case3 p a hp => intro _; exact ⟨.ErrLength, by simp [hex.Decode, hp]⟩
  | case4 p q rest hp => intro _; exact ⟨.InvalidByteError p, by simp [hex.Decode, hp]⟩
  | case5 p q rest a ha hq => intro _; exact ⟨.InvalidByteError q, by simp [hex.Decode, ha, hq]⟩
  | case6 p q rest a ha b hb e he ih => intro _; exact ⟨e, by simp [hex.Decode, ha, hb, he]⟩
  | case7 p q rest a ha b hb bs' hbs ih =>
    intro h
    have hp : isHexByte p := by
      by_contra hc
      rw [(fromHexChar_eq_none_iff p).mpr hc] at ha
      exact Option.noConfusion ha
    have hq : isHexByte q := by
      by_contra hc
      rw [(fromHexChar_eq_none_iff q).mpr hc] at hb
      exact Option.noConfusion hb
    have h' : rest.length % 2 = 1 ∨ ∃ c ∈ rest, ¬ isHexByte c := by
      rcases h with h | ⟨c, hc, hn⟩
      · left
        simp at h
        omega
      · right
        simp at hc
        rcases hc with rfl | rfl | hc
        · exact absurd hp hn
        · exact absurd hq hn
        · exact ⟨c, hc, hn⟩
    obtain ⟨e, he⟩ := ih h'
    rw [hbs] at he
    exact Except.noConfusion he

/-- Decoding succeeds on an even number of digits. -/
theorem hexDecode_ok_of_hex (s : List Nat) :
    s.length % 2 = 0 → (∀ c ∈ s, isHexByte c) →
      ∃ bs, hex.Decode s = .ok bs ∧ bs.length * 2 = s.length := by
  induction s using hex.Decode.induct with
  | case1 => intro _ _; exact ⟨[], by simp [hex.Decode]⟩
  | case2 p hp => intro h _; simp at h
  | case3 p a hp => intro h _; simp at h
  | case4 p q rest hp =>
    intro _ h
    exact absurd (h p (by simp)) ((fromHexChar_eq_none_iff p).mp hp)
  | case5 p q rest a ha hq =>
    intro _ h
    exact absurd (h q (by simp)) ((fromHexChar_eq_none_iff q).mp hq)
  | case6 p q rest a ha b hb e he ih =>
    intro hl h
    have hl' : rest.length % 2 = 0 := by simp at hl; omega
    obtain ⟨bs, hbs, _⟩ := ih hl' (fun c hc => h c (by simp [hc]))
    rw [he] at hbs
    exact Except.noConfusion hbs
  | case7 p q rest a ha b hb bs' hbs ih =>
    intro _ _
    refine ⟨(a * 16 + b) :: bs', by simp [hex.Decode, ha, hb, hbs], ?_⟩
    have := hexDecode_length rest bs' hbs
    simp
    omega

/-- Encoding what was decoded from digits of `hextable` gives the digits back. -/
theorem hexEncode_hexDecode (s : List Nat) :
    ∀ bs, hex.Decode s = .ok bs → (∀ c ∈ s, isLowerHexByte c) →
      hex.EncodeToString bs = s := by
  induction s using hex.Decode.induct with
  | case1 => intro bs h _; simp [hex.Decode] at h; subst h; rfl
  | case2 p hp => intro bs h; simp [hex.Decode, hp] at h
  | case3 p a hp => intro bs h; simp [hex.Decode, hp] at h
  | case4 p q rest hp => intro bs h; simp [hex.Decode, hp] at h
  | case5 p q rest a ha hq => intro bs h; simp [hex.Decode, ha, hq] at h
  | case6 p q rest a ha b hb e he ih => intro bs h; simp [hex.Decode, ha, hb, he] at h
  | case7 p q rest a ha b hb bs' hbs ih =>
    intro bs h hlow
    simp [hex.Decode, ha, hb, hbs] at h
    subst h
    obtain ⟨a', ha', hlt, hda⟩ := fromHexChar_of_lower p (hlow p (by simp))
    obtain ⟨b', hb', hlt', hdb⟩ := fromHexChar_of_lower q (hlow q (by simp))
    rw [ha] at ha'
    rw [hb] at hb'
    cases ha'
    cases hb'
    have h1 : (a * 16 + b) / 16 = a := by omega
    have h2 : (a * 16 + b) % 16 = b := by omega
    simp only [hex.EncodeToString, h1, h2, hda, hdb]
    rw [ih bs' hbs (fun c hc => hlow c (by simp [hc]))]

/-! ## Lemmas on `strings.Split` -/

theorem stringsSplit_ne_nil (sep : Nat) (s : List Nat) : strings.Split sep s ≠ [] := by
  cases s with
  | nil => simp [strings.Split]
  | cons c cs =>
    unfold strings.Split
    split_ifs
    · simp
    · split <;> simp

theorem stringsSplit_cons_sep (sep : Nat) (cs : List Nat) :
    strings.Split sep (sep :: cs) = [] :: strings.Split sep cs := by
  simp [strings.Split]

theorem stringsSplit_cons_ne (sep c : Nat) (cs : List Nat) (h : c ≠ sep) :
    ∃ p ps, strings.Split sep cs = p :: ps ∧ strings.Split sep (c :: cs) = (c :: p) :: ps := by
  cases hs : strings.Split sep cs with
  | nil => exact absurd hs (stringsSplit_ne_nil sep cs)
  | cons p ps => exact ⟨p, ps, rfl, by simp [strings.Split, h, hs]⟩

/-- A string without the separator is returned whole, and only such a string. -/
theorem stringsSplit_eq_singleton_iff (sep : Nat) (s a : List Nat) :
    strings.Split sep s = [a] ↔ s = a ∧ sep ∉ a := by
  induction s generalizing a with
  | nil =>
    simp only [strings.Split]
    constructor
    · intro h
      simp at h
      subst h
      simp
    · rintro ⟨rfl, _⟩
      rfl
  | cons c cs ih =>
    by_cases hc : c = sep
    · subst hc
      rw [stringsSplit_cons_sep]
      constructor
      · intro h
        simp at h
        exact absurd h.2 (stringsSplit_ne_nil c cs)
      · rintro ⟨rfl, hn⟩
        simp at hn
    · obtain ⟨p, ps, hcs, hfull⟩ := stringsSplit_cons_ne sep c cs hc
      rw [hfull]
      constructor
      · intro h
        simp at h
        obtain ⟨rfl, rfl⟩ := h
        obtain ⟨rfl, hn⟩ := (ih p).mp hcs
        refine ⟨rfl, ?_⟩
        simp [hn]
        exact fun h => hc h.symm
      · rintro ⟨rfl, hn⟩
        simp at hn
        have := (ih cs).mpr ⟨rfl, hn.2⟩
        rw [hcs] at this
        simp at this
        simp [this]

/-- Splitting yields exactly two parts exactly for a string with one separator. -/
theorem stringsSplit_eq_pair_iff (sep : Nat) (s a b : List Nat) :
    strings.Split sep s = [a, b] ↔ s = a ++ sep :: b ∧ sep ∉ a ∧ sep ∉ b := by
  induction s generalizing a with
  | nil => simp [strings.Split]
  | cons c cs ih =>
    by_cases hc : c = sep
    · subst hc
      rw [stringsSplit_cons_sep]
      constructor
      · intro h
        simp at h
        obtain ⟨rfl, h2⟩ := h
        obtain ⟨rfl, hn⟩ := (stringsSplit_eq_singleton_iff c cs b).mp h2
        simp [hn]
      · rintro ⟨h, hna, hnb⟩
        cases a with
        | nil =>
          simp at h
          subst h
          rw [(stringsSplit_eq_singleton_iff c cs cs).mpr ⟨rfl, hnb⟩]
        | cons x xs =>
          simp at h
          simp [h.1] at hna
    · obtain ⟨p, ps, hcs, hfull⟩ := stringsSplit_cons_ne sep c cs hc
      rw [hfull]
      constructor
      · intro h
        simp at h
        obtain ⟨rfl, rfl⟩ := h
        obtain ⟨rfl, hna, hnb⟩ := (ih p).mp hcs
        refine ⟨by simp, ?_, hnb⟩
        simp [hna]
        exact fun h => hc h.symm
      · rintro ⟨h, hna, hnb⟩
        cases a with
        | nil =>
          simp at h
          exact absurd h.1 hc
        | cons x xs =>
          simp at h
          obtain ⟨rfl, rfl⟩ := h
          simp at hna
          have := (ih xs).mpr ⟨rfl, hna.2, hnb⟩
          rw [hcs] at this
          simp at this
          simp [this]

/-! ## Lemmas on `strconv` -/

theorem parseUintLoop_append (xs ys : List Nat) (m : Nat) :
    parseUintLoop (xs ++ ys) m =
      match parseUintLoop xs m with
      | .error e => .error e
      | .ok k => parseUintLoop ys k := by
  induction xs generalizing m with
  | nil => simp [parseUintLoop]
  | cons c cs ih =>
    simp only [List.cons_append, parseUintLoop]
    split_ifs <;> first | rfl | exact ih _

theorem parseUintLoop_digit (k d : Nat) (hd : d < 10) (hk : k * 10 + d < 2 ^ 64) :
    parseUintLoop [48 + d] k = .ok (k * 10 + d) := by
  have h64 : (2 : Nat) ^ 64 = 18446744073709551616 := by norm_num
  rw [h64] at hk
  have hm : (k * 10 + d) % 18446744073709551616 = k * 10 + d := Nat.mod_eq_of_lt hk
  have h1 : 48 ≤ 48 + d ∧ 48 + d ≤ 57 := by omega
  have h2 : ¬ (k ≥ (18446744073709551616 - 1) / 10 + 1) := by omega
  have h3 : ¬ (k * 10 + d < k * 10 ∨ k * 10 + d > 18446744073709551616 - 1) := by omega
  simp only [parseUintLoop, h64, h1, h2, h3, hm, Nat.add_sub_cancel_left, and_self, if_true,
    if_false]

/-- The digits `formatLoop` writes are decimal digits, at least one, and the
loop of `strconv.ParseUint` reads the number back from them. -/
theorem formatLoop_spec (fuel n : Nat) (acc : List Nat)
    (hfuel : 0 < fuel) (hn : n < 10 ^ fuel) (h64 : n < 2 ^ 64) :
    ∃ ds, formatLoop fuel n acc = ds ++ acc ∧ ds ≠ [] ∧ (∀ c ∈ ds, isDigitByte c) ∧
      parseUintLoop ds 0 = .ok n := by
  induction fuel generalizing n acc with
  | zero => exact absurd hfuel (by decide)
  | succ fuel ih =>
    by_cases hlt : n < 10
    · refine ⟨[48 + n], by simp [formatLoop, hlt], by simp, ?_, ?_⟩
      · intro c hc
        simp at hc
        subst hc
        unfold isDigitByte
        omega
      · have := parseUintLoop_digit 0 n hlt (by simpa using h64)
        simpa using this
    · have hpos : 0 < fuel := by
        rcases Nat.eq_zero_or_pos fuel with h0 | h0
        · subst h0
          simp at hn
          omega
        · exact h0
      have hdiv : n / 10 < 10 ^ fuel := by
        apply Nat.div_lt_of_lt_mul
        rw [pow_succ] at hn
        omega
      have hdiv64 : n / 10 < 2 ^ 64 := lt_of_le_of_lt (Nat.div_le_self n 10) h64
      obtain ⟨ds, hds, _, hdig, hparse⟩ := ih (n / 10) ((48 + n % 10) :: acc) hpos hdiv hdiv64
      refine ⟨ds ++ [48 + n % 10], by simp [formatLoop, hlt, hds], by simp, ?_, ?_⟩
      · intro c hc
        simp at hc
        rcases hc with hc | rfl
        · exact hdig c hc
        · unfold isDigitByte
          omega
      · rw [parseUintLoop_append, hparse]
        have hval : n / 10 * 10 + n % 10 = n := by omega
        have := parseUintLoop_digit (n / 10) (n % 10) (by omega) (by rw [hval]; exact h64)
        rw [hval] at this
        exact this

/-- The decimal rendering of a 32-bit index: digits only, not empty, and read
back by `strconv.ParseInt` as the same number. -/
theorem FormatUint_spec (n : Nat) (hn : n < 2 ^ 32) :
    strconv.FormatUint n ≠ [] ∧ (∀ c ∈ strconv.FormatUint n, isDigitByte c) ∧
      strconv.ParseInt (strconv.FormatUint n) = .ok (n : Int) := by
  have h32 : (2 : Nat) ^ 32 = 4294967296 := by norm_num
  have h63 : (2 : Nat) ^ 63 = 9223372036854775808 := by norm_num
  have h64 : (2 : Nat) ^ 64 = 18446744073709551616 := by norm_num
  rw [h32] at hn
  obtain ⟨ds, hds, hne, hdig, hparse⟩ :=
    formatLoop_spec 20 n [] (by decide) (by norm_num; omega) (by rw [h64]; omega)
  have hfmt : strconv.FormatUint n = ds := by simp [strconv.FormatUint, hds]
  rw [hfmt]
  refine ⟨hne, hdig, ?_⟩
  cases ds with
  | nil => exact absurd rfl hne
  | cons c cs =>
    have hc : isDigitByte c := hdig c (by simp)
    unfold isDigitByte at hc
    have h43 : ¬ (c = 43 ∨ c = 45) := by omega
    have h45 : ¬ (c = 45) := by omega
    have h43' : ¬ (c = 43) := by omega
    have hge : ¬ (9223372036854775808 ≤ n) := by omega
    simp [strconv.ParseInt, strconv.ParseUint, h43', h45, hparse, h63, hge]

/-! ## Lemmas on `parseOutPoint` -/

theorem NewHashFromStr_of_hex (h : List Nat) (hlen : h.length = 64)
    (hhex : ∀ c ∈ h, isHexByte c) :
    ∃ bs, hex.Decode h = .ok bs ∧ bs.length = 32 ∧ chainhash.NewHashFromStr h = .ok bs.reverse := by
  obtain ⟨bs, hbs, hl⟩ := hexDecode_ok_of_hex h (by rw [hlen]) hhex
  have hl32 : bs.length = 32 := by omega
  refine ⟨bs, hbs, hl32, ?_⟩
  simp [chainhash.NewHashFromStr, hlen, hbs, hl32]

theorem parseOutPoint_of_parts (a b : List Nat) (ha : 58 ∉ a) (hb : 58 ∉ b)
    (hane : a ≠ []) (hbne : b ≠ []) :
    parseOutPoint (a ++ 58 :: b) =
      match strconv.ParseInt b with
      | .error e => .error (.IndexErr e)
      | .ok index =>
        match chainhash.NewHashFromStr a with
        | .error e => .error (.HexStringErr e)
        | .ok txid => .ok ⟨txid, (index % 2 ^ 32).toNat⟩ := by
  have hsplit : strings.Split 58 (a ++ 58 :: b) = [a, b] :=
    (stringsSplit_eq_pair_iff 58 _ a b).mpr ⟨rfl, ha, hb⟩
  simp [parseOutPoint, hsplit, hane, hbne]

theorem not_mem_58_of_hex (h : List Nat) (hhex : ∀ c ∈ h, isHexByte c) : 58 ∉ h := by
  intro hm
  have := hhex 58 hm
  simp [isHexByte] at this

theorem not_mem_58_of_digits (h : List Nat) (hdig : ∀ c ∈ h, isDigitByte c) : 58 ∉ h := by
  intro hm
  have := hdig 58 hm
  simp [isDigitByte] at this

/-- With a transaction id of 32 bytes, the channel id is the id with bytes 30
and 31 XORed with the two bytes of the truncated index. -/
theorem NewChanIDFromOutPoint_eq (t : List Nat) (i : Nat) (ht : t.length = 32) :
    lnwire.NewChanIDFromOutPoint ⟨t, i⟩ =
      t.take 30 ++ [t.getD 30 0 ^^^ (i % 2 ^ 16 / 256), t.getD 31 0 ^^^ (i % 2 ^ 16 % 256)] := by
  have hcopy : copySlice (List.replicate 32 0) t = t := by
    simp [copySlice, ← ht]
  simp only [lnwire.NewChanIDFromOutPoint, hcopy]
  apply List.ext_getElem
  · simp [ht]
  · intro n h1 h2
    simp [ht] at h1
    by_cases h30 : n < 30
    · have e1 : ¬ (31 = n) := by omega
      have e2 : ¬ (30 = n) := by omega
      simp [List.getElem_set, List.getElem_append, h30, ht, e1, e2]
    · by_cases h31 : n = 30
      · subst h31
        simp [List.getElem_set, List.getElem_append, ht, List.getD_eq_getElem?_getD]
      · have : n = 31 := by omega
        subst this
        simp [List.getElem_set, List.getElem_append, ht, List.getD_eq_getElem?_getD]

theorem NewChanIDFromOutPoint_length (op : OutPoint) :
    (lnwire.NewChanIDFromOutPoint op).length = 32 := by
  simp [lnwire.NewChanIDFromOutPoint, copySlice]
  omega

/-! ## Channel id derivation and the channel-error frame -/

/-- C1: for a 32-byte transaction id `t` and a 32-bit index `i`, the derived
channel id has 32 bytes, its bytes 0..29 are those of `t`, its bytes 30 and 31
are `t[30]` and `t[31]` XORed with the high and the low byte of `i mod 2^16`; so
indices that agree modulo `2^16` give the same channel id, and the index never
changes the first 30 bytes. -/
theorem chanID_layout (t : List Nat) (i : Nat) (ht : t.length = 32) (_hi : i < 2 ^ 32) :
    (lnwire.NewChanIDFromOutPoint ⟨t, i⟩).length = 32 ∧
    (lnwire.NewChanIDFromOutPoint ⟨t, i⟩).take 30 = t.take 30 ∧
    (lnwire.NewChanIDFromOutPoint ⟨t, i⟩).getD 30 0 = t.getD 30 0 ^^^ (i % 2 ^ 16 / 256) ∧
    (lnwire.NewChanIDFromOutPoint ⟨t, i⟩).getD 31 0 = t.getD 31 0 ^^^ (i % 2 ^ 16 % 256) ∧
    (∀ j, j < 2 ^ 32 → j % 2 ^ 16 = i % 2 ^ 16 →
      lnwire.NewChanIDFromOutPoint ⟨t, j⟩ = lnwire.NewChanIDFromOutPoint ⟨t, i⟩) ∧
    (∀ j, j < 2 ^ 32 →
      (lnwire.NewChanIDFromOutPoint ⟨t, j⟩).take 30 = (lnwire.NewChanIDFromOutPoint ⟨t, i⟩).take 30) := by
  have hlen30 : (List.take 30 t).length = 30 := by simp [ht]
  refine ⟨NewChanIDFromOutPoint_length _, ?_, ?_, ?_, ?_, ?_⟩
  · rw [NewChanIDFromOutPoint_eq t i ht, List.take_append_of_le_length (by rw [hlen30])]
    simp
  · rw [NewChanIDFromOutPoint_eq t i ht]
    simp [List.getD_eq_getElem?_getD, List.getElem_append, ht]
  · rw [NewChanIDFromOutPoint_eq t i ht]
    simp [List.getD_eq_getElem?_getD, List.getElem_append, ht]
  · intro j _ hj
    rw [NewChanIDFromOutPoint_eq t i ht, NewChanIDFromOutPoint_eq t j ht, hj]
  · intro j _
    rw [NewChanIDFromOutPoint_eq t i ht, NewChanIDFromOutPoint_eq t j ht,
      List.take_append_of_le_length (by rw [hlen30]),
      List.take_append_of_le_length (by rw [hlen30])]

/-- Witness for C1: the sample transaction id and the index 65539, whose low 16
bits are 3. -/
theorem chanID_layout_witness :
    sampleTxid.length = 32 ∧ 65539 < 2 ^ 32 ∧
      (lnwire.NewChanIDFromOutPoint ⟨sampleTxid, 65539⟩).getD 31 0
        = sampleTxid.getD 31 0 ^^^ (65539 % 2 ^ 16 % 256) :=
  ⟨by decide, by decide, (chanID_layout sampleTxid 65539 (by decide) (by decide)).2.2.2.1⟩

/-- C2: with a peer that decodes from hex and a `chan_point` that `parseOutPoint`
accepts, `sendChannelError` hands exactly one request to the client; its type is
`lnwire.MsgError` (17), its data has 34 bytes, bytes 0..31 are the derived channel id and
bytes 32..33 are zero. -/
theorem sendChannelError_request (client : Client) (ctx : Context) (peer : List Nat)
    (op : OutPoint) (hpeer : hex.DecodeString ctx.peer = .ok peer)
    (hop : parseOutPoint ctx.chanPoint = .ok op) :
    ∃ req, sendChannelError client ctx = ([req], client.SendCustomMessage req) ∧
      req.Peer = peer ∧ req.MsgType = lnwire.MsgError ∧ lnwire.MsgError = 17 ∧
      req.Data.length = 34 ∧ req.Data.take 32 = lnwire.NewChanIDFromOutPoint op ∧
      req.Data.drop 32 = [0, 0] := by
  have hlen := NewChanIDFromOutPoint_length op
  have hcopy : copySlice (List.replicate 32 0) (lnwire.NewChanIDFromOutPoint op)
      = lnwire.NewChanIDFromOutPoint op := by
    simp [copySlice, ← hlen]
  refine ⟨⟨peer, lnwire.MsgError % 2 ^ 32, lnwire.NewChanIDFromOutPoint op ++ [0, 0]⟩, ?_, rfl, ?_, rfl, ?_, ?_, ?_⟩
  · simp only [sendChannelError, hpeer, hop]
    have h1 : List.take 32 (List.replicate 34 0) = List.replicate 32 0 := by decide
    have h2 : List.drop 32 (List.replicate 34 0) = [0, 0] := by decide
    rw [h1, h2, hcopy]
  · show lnwire.MsgError % 2 ^ 32 = lnwire.MsgError
    decide
  · simp [hlen]
  · simp [← hlen]
  · simp [← hlen]

/-- Witness for C2: the sample peer and the outpoint `aabb…ccdd:3`. -/
theorem sendChannelError_request_witness :
    ∃ req, sendChannelError acceptingClient ⟨samplePeerHex, 0, [],
        goString "aabb00000000000000000000000000000000000000000000000000000000ccdd:3"⟩
          = ([req], acceptingClient.SendCustomMessage req) ∧
      req.Peer = 2 :: List.replicate 32 171 ∧ req.MsgType = lnwire.MsgError ∧ lnwire.MsgError = 17 ∧
      req.Data.length = 34 ∧ req.Data.take 32 = lnwire.NewChanIDFromOutPoint ⟨sampleTxid, 3⟩ ∧
      req.Data.drop 32 = [0, 0] :=
  sendChannelError_request acceptingClient _ (2 :: List.replicate 32 171) ⟨sampleTxid, 3⟩
    (by decide) (by decide)

/-! ## `parseOutPoint` -/

/-- C3, as stated, fails: for the transaction id displayed as `aabb…ccdd` and
index 3, parsing succeeds with a 32-byte id whose last two bytes are `0xbb 0xaa`,
and the channel id ends in `0xbb 0xa9` (the XOR with `0x00 0x03`), not in
`0x00 0x03`. -/
theorem chanID_index3_not_replaced :
    parseOutPoint (goString "aabb00000000000000000000000000000000000000000000000000000000ccdd:3")
      = .ok ⟨sampleTxid, 3⟩ ∧
    sampleTxid.length = 32 ∧
    lnwire.NewChanIDFromOutPoint ⟨sampleTxid, 3⟩ = sampleTxid.take 30 ++ [187, 169] ∧
    lnwire.NewChanIDFromOutPoint ⟨sampleTxid, 3⟩ ≠ sampleTxid.take 30 ++ [0, 3] := by
  refine ⟨by decide, by decide, by decide, by decide⟩

/-- C3, amended: for every transaction id string `h` of 64 hex characters,
`parseOutPoint (h ++ ":3")` succeeds with index 3 and a 32-byte transaction id
(the decoded bytes of `h`, reversed), and the derived channel id is that id with
its last byte XORed with `0x03`, the first 31 bytes unchanged. -/
theorem parseOutPoint_index3_chanID (h : List Nat) (hlen : h.length = 64)
    (hhex : ∀ c ∈ h, isHexByte c) :
    ∃ txid, parseOutPoint (h ++ goString ":3") = .ok ⟨txid, 3⟩ ∧ txid.length = 32 ∧
      hex.Decode h = .ok txid.reverse ∧
      lnwire.NewChanIDFromOutPoint ⟨txid, 3⟩ = txid.take 31 ++ [txid.getD 31 0 ^^^ 3] := by
  obtain ⟨bs, hbs, hl, hhash⟩ := NewHashFromStr_of_hex h hlen hhex
  have hne : h ≠ [] := by
    intro h0
    rw [h0] at hlen
    simp at hlen
  have hstr : goString ":3" = 58 :: [51] := by decide
  have hint : strconv.ParseInt [51] = .ok 3 := by decide
  have hlr : bs.reverse.length = 32 := by simp [hl]
  refine ⟨bs.reverse, ?_, hlr, by simpa using hbs, ?_⟩
  · rw [hstr, parseOutPoint_of_parts h [51] (not_mem_58_of_hex h hhex) (by decide) hne
      (by decide), hint]
    simp only [hhash]
    rfl
  · rw [NewChanIDFromOutPoint_eq _ 3 hlr]
    have h0 : (3 % 2 ^ 16 / 256 : Nat) = 0 := by decide
    have h3 : (3 % 2 ^ 16 % 256 : Nat) = 3 := by decide
    rw [h0, h3, Nat.xor_zero]
    have htake : List.take 31 bs.reverse = List.take 30 bs.reverse ++ [bs.reverse.getD 30 0] := by
      rw [List.take_succ]
      simp [List.getD_eq_getElem?_getD, List.getElem?_eq_getElem, hl]
    rw [htake]
    simp

/-- Witness for C3, amended: the id displayed as `aabb…ccdd`. -/
theorem parseOutPoint_index3_chanID_witness :
    ∃ txid, parseOutPoint
        (goString "aabb00000000000000000000000000000000000000000000000000000000ccdd"
          ++ goString ":3") = .ok ⟨txid, 3⟩ ∧ txid.length = 32 ∧
      hex.Decode (goString "aabb00000000000000000000000000000000000000000000000000000000ccdd")
        = .ok txid.reverse ∧
      lnwire.NewChanIDFromOutPoint ⟨txid, 3⟩ = txid.take 31 ++ [txid.getD 31 0 ^^^ 3] :=
  parseOutPoint_index3_chanID _ (by decide) (by decide)

/-- C4, as stated, fails: a transaction id written with upper-case hex digits is
accepted and printed back in lower case, and the index `007`, which denotes 7,
is accepted and printed back as `7`. -/
theorem roundtrip_not_exact :
    ((goString "AABB00000000000000000000000000000000000000000000000000000000CCDD").length = 64 ∧
      (∀ c ∈ goString "AABB00000000000000000000000000000000000000000000000000000000CCDD",
        isHexByte c) ∧
      strconv.ParseInt (goString "0") = .ok 0 ∧
      parseOutPoint
          (goString "AABB00000000000000000000000000000000000000000000000000000000CCDD:0")
        = .ok ⟨sampleTxid, 0⟩ ∧
      OutPoint.String ⟨sampleTxid, 0⟩
        = goString "aabb00000000000000000000000000000000000000000000000000000000ccdd:0" ∧
      OutPoint.String ⟨sampleTxid, 0⟩
        ≠ goString "AABB00000000000000000000000000000000000000000000000000000000CCDD:0") ∧
    (strconv.ParseInt (goString "007") = .ok 7 ∧
      parseOutPoint
          (goString "aabb00000000000000000000000000000000000000000000000000000000ccdd:007")
        = .ok ⟨sampleTxid, 7⟩ ∧
      OutPoint.String ⟨sampleTxid, 7⟩
        = goString "aabb00000000000000000000000000000000000000000000000000000000ccdd:7" ∧
      OutPoint.String ⟨sampleTxid, 7⟩
        ≠ goString "aabb00000000000000000000000000000000000000000000000000000000ccdd:007") := by
  refine ⟨⟨by decide, by decide, by decide, by decide, by decide, by decide⟩,
    by decide, by decide, by decide, by decide⟩

/-- C4, amended: for every `h` of 64 lower-case hex digits and every `n < 2^32`
written in decimal without sign or leading zeros, `parseOutPoint` accepts
`h ++ ":" ++ decimal n`, the outpoint has index `n` and a 32-byte hash, and the
display form of the outpoint is the input string again. -/
theorem parseOutPoint_roundtrip (h : List Nat) (n : Nat) (hlen : h.length = 64)
    (hlow : ∀ c ∈ h, isLowerHexByte c) (hn : n < 2 ^ 32) :
    ∃ op, parseOutPoint (h ++ [58] ++ strconv.FormatUint n) = .ok op ∧ op.Index = n ∧
      op.Hash.length = 32 ∧ OutPoint.String op = h ++ [58] ++ strconv.FormatUint n := by
  have hhex : ∀ c ∈ h, isHexByte c := by
    intro c hc
    rcases hlow c hc with hd | hl
    · exact Or.inl hd
    · exact Or.inr (Or.inl hl)
  obtain ⟨bs, hbs, hl, hhash⟩ := NewHashFromStr_of_hex h hlen hhex
  obtain ⟨hfne, hfdig, hfparse⟩ := FormatUint_spec n hn
  have hne : h ≠ [] := by
    intro h0
    rw [h0] at hlen
    simp at hlen
  have hidx : (((n : Int) % 2 ^ 32).toNat) = n := by
    have h32 : (2 : Nat) ^ 32 = 4294967296 := by norm_num
    rw [h32] at hn
    omega
  refine ⟨⟨bs.reverse, n⟩, ?_, rfl, by simp [hl], ?_⟩
  · have happ : h ++ [58] ++ strconv.FormatUint n = h ++ 58 :: strconv.FormatUint n := by simp
    rw [happ, parseOutPoint_of_parts h (strconv.FormatUint n) (not_mem_58_of_hex h hhex)
      (not_mem_58_of_digits _ hfdig) hne hfne, hfparse]
    simp only [hhash, hidx]
  · simp only [OutPoint.String, chainhash.HashString, List.reverse_reverse]
    rw [hexEncode_hexDecode h bs hbs hlow]

/-- Witness for C4, amended: the id `aabb…ccdd` and the largest index. -/
theorem parseOutPoint_roundtrip_witness :
    ∃ op, parseOutPoint
        (goString "aabb00000000000000000000000000000000000000000000000000000000ccdd" ++ [58]
          ++ strconv.FormatUint 4294967295) = .ok op ∧ op.Index = 4294967295 ∧
      op.Hash.length = 32 ∧
      OutPoint.String op
        = goString "aabb00000000000000000000000000000000000000000000000000000000ccdd" ++ [58]
          ++ strconv.FormatUint 4294967295 :=
  parseOutPoint_roundtrip _ 4294967295 (by decide) (by decide) (by decide)

/-- C5 at its failing inputs: `aa:-1` is accepted with index `4294967295`,
`aa:4294967296` is accepted with index `0`, and `validtxid:-1` is rejected for its
transaction id, not for its index.  An index that is not a number, or that does
not fit in 64 bits, is rejected with the invalid-index error. -/
theorem parseOutPoint_unchecked_index :
    parseOutPoint (goString "aa:-1") = .ok ⟨170 :: List.replicate 31 0, 4294967295⟩ ∧
    parseOutPoint (goString "aa:4294967296") = .ok ⟨170 :: List.replicate 31 0, 0⟩ ∧
    parseOutPoint (goString "validtxid:-1")
      = .error (.HexStringErr (.InvalidByteError 118)) ∧
    parseOutPoint (goString "aa:x") = .error (.IndexErr .NumSyntaxErr) ∧
    parseOutPoint (goString "aa:9223372036854775808") = .error (.IndexErr .NumRangeErr) := by
  refine ⟨by decide, by decide, by decide, by decide, by decide⟩

/-- C6: `parseOutPoint s` fails with `errBadChanPoint` exactly when splitting `s`
on `:` does not give exactly two parts that are both non-empty, that is, exactly
when `s` is not a non-empty colon-free part, one colon, and a second non-empty
colon-free part; `onlytxid`, `a:b:c`, `:1` and `ab:` all fail with it. -/
theorem parseOutPoint_badChanPoint_iff (s : List Nat) :
    (parseOutPoint s = .error .ErrBadChanPoint ↔
      ¬ ∃ a b, strings.Split 58 s = [a, b] ∧ a ≠ [] ∧ b ≠ []) ∧
    (parseOutPoint s = .error .ErrBadChanPoint ↔
      ¬ ∃ a b, s = a ++ 58 :: b ∧ 58 ∉ a ∧ 58 ∉ b ∧ a ≠ [] ∧ b ≠ []) ∧
    parseOutPoint (goString "onlytxid") = .error .ErrBadChanPoint ∧
    parseOutPoint (goString "a:b:c") = .error .ErrBadChanPoint ∧
    parseOutPoint (goString ":1") = .error .ErrBadChanPoint ∧
    parseOutPoint (goString "ab:") = .error .ErrBadChanPoint := by
  have key : parseOutPoint s = .error .ErrBadChanPoint ↔
      ¬ ∃ a b, strings.Split 58 s = [a, b] ∧ a ≠ [] ∧ b ≠ [] := by
    constructor
    · rintro hp ⟨a, b, hs, ha, hb⟩
      simp only [parseOutPoint, hs] at hp
      simp [ha, hb] at hp
      cases hi : strconv.ParseInt b with
      | error e => simp [hi] at hp
      | ok index =>
        cases hh : chainhash.NewHashFromStr a with
        | error e => simp [hi, hh] at hp
        | ok txid => simp [hi, hh] at hp
    · intro hno
      unfold parseOutPoint
      simp only
      split_ifs with hc
      · rfl
      · exfalso
        apply hno
        simp only [not_or, not_not] at hc
        obtain ⟨hlen2, h0, h1⟩ := hc
        match hsp : strings.Split 58 s, hlen2 with
        | [a, b], _ =>
          rw [hsp] at h0 h1
          refine ⟨a, b, rfl, ?_, ?_⟩
          · intro ha; subst ha; simp at h0
          · intro hb; subst hb; simp at h1
  refine ⟨key, ?_, by decide, by decide, by decide, by decide⟩
  rw [key]
  constructor
  · rintro hno ⟨a, b, hs, ha, hb, hane, hbne⟩
    exact hno ⟨a, b, (stringsSplit_eq_pair_iff 58 s a b).mpr ⟨hs, ha, hb⟩, hane, hbne⟩
  · rintro hno ⟨a, b, hs, hane, hbne⟩
    obtain ⟨h1, h2, h3⟩ := (stringsSplit_eq_pair_iff 58 s a b).mp hs
    exact hno ⟨a, b, h1, h2, h3, hane, hbne⟩

/-! ## `sendCustom` and the peer argument -/

/-- C7, as stated, fails: with type 65536, which does not fit in 16 bits,
`sendCustom` returns no error and hands the client one request of type 65536. -/
theorem sendCustom_type_65536_dispatched :
    sendCustom acceptingClient ⟨samplePeerHex, 65536, goString "00ff", []⟩
      = ([⟨2 :: List.replicate 32 171, 65536, [0, 255]⟩], none) := by
  decide

/-- C7, amended: `sendCustom` makes no 16-bit range check.  For every type value
below `2^32`, values above 65535 included, and a peer and data that decode from
hex, it hands the client exactly one request carrying that type value unchanged,
and returns what the client returns. -/
theorem sendCustom_type_passthrough (client : Client) (ctx : Context)
    (peer data : List Nat) (hpeer : hex.DecodeString ctx.peer = .ok peer)
    (hdata : hex.DecodeString ctx.data = .ok data) (ht : ctx.msgType < 2 ^ 32) :
    sendCustom client ctx
      = ([⟨peer, ctx.msgType, data⟩], client.SendCustomMessage ⟨peer, ctx.msgType, data⟩) := by
  simp only [sendCustom, hpeer, hdata, Nat.mod_eq_of_lt ht]

/-- Witness for C7, amended: the largest 32-bit type value. -/
theorem sendCustom_type_passthrough_witness :
    sendCustom acceptingClient ⟨samplePeerHex, 4294967295, goString "00ff", []⟩
      = ([⟨2 :: List.replicate 32 171, 4294967295, [0, 255]⟩],
          acceptingClient.SendCustomMessage ⟨2 :: List.replicate 32 171, 4294967295, [0, 255]⟩) :=
  sendCustom_type_passthrough acceptingClient
    ⟨samplePeerHex, 4294967295, goString "00ff", []⟩ (2 :: List.replicate 32 171) [0, 255]
    (by decide) (by decide) (by decide)

/-- C8, as stated, fails: an empty peer string, and a peer string of one byte,
decode from hex without error, and both commands hand the request to the
client. -/
theorem short_peer_dispatched :
    sendCustom acceptingClient ⟨goString "", 32768, goString "00ff", []⟩
      = ([⟨[], 32768, [0, 255]⟩], none) ∧
    sendCustom acceptingClient ⟨goString "ab", 32768, goString "00ff", []⟩
      = ([⟨[171], 32768, [0, 255]⟩], none) ∧
    sendChannelError acceptingClient ⟨goString "", 0, [],
        goString "aabb00000000000000000000000000000000000000000000000000000000ccdd:3"⟩
      = ([⟨[], 17, sampleTxid.take 30 ++ [187, 169, 0, 0]⟩], none) := by
  refine ⟨by decide, by decide, by decide⟩

/-- C8, amended: for every peer argument that is not valid hex (an odd number of
characters, or a character that is not a hex digit), `sendCustom` and
`sendChannelError` fail with the hex decoding error and hand nothing to the
client.  The length of the decoded peer is not checked. -/
theorem invalid_hex_peer_not_dispatched (client : Client) (ctx : Context)
    (hbad : ctx.peer.length % 2 = 1 ∨ ∃ c ∈ ctx.peer, ¬ isHexByte c) :
    ∃ e, hex.DecodeString ctx.peer = .error e ∧
      sendCustom client ctx = ([], some e) ∧
      sendChannelError client ctx = ([], some e) := by
  obtain ⟨e, he⟩ := hexDecode_error_of_bad ctx.peer hbad
  have he' : hex.DecodeString ctx.peer = .error e := he
  exact ⟨e, he', by simp only [sendCustom, he'], by simp only [sendChannelError, he']⟩

/-- Witness for C8, amended: the peer string `02zz`. -/
theorem invalid_hex_peer_not_dispatched_witness :
    ∃ e, hex.DecodeString (goString "02zz") = .error e ∧
      sendCustom acceptingClient ⟨goString "02zz", 32768, goString "00ff", []⟩ = ([], some e) ∧
      sendChannelError acceptingClient ⟨goString "02zz", 32768, goString "00ff", []⟩
        = ([], some e) :=
  invalid_hex_peer_not_dispatched acceptingClient
    ⟨goString "02zz", 32768, goString "00ff", []⟩ (Or.inr ⟨122, by decide, by decide⟩)

/-! ## `subscribeCustom` -/

theorem recvLoop_run (recv : Nat → Except Error CustomMessage) (term : Error)
    (es : List CustomMessage) :
    ∀ (fuel k : Nat) (out : List (List Nat)),
      (∀ j e, es[j]? = some e → recv (k + j) = .ok e) →
      recv (k + es.length) = .error term → es.length < fuel →
      recvLoop recv fuel k out = some (out ++ es.map renderMessage, some term) := by
  induction es with
  | nil =>
    intro fuel k out _ hend hfuel
    cases fuel with
    | zero => simp at hfuel
    | succ fuel =>
      simp at hend
      simp [recvLoop, hend]
  | cons e es ih =>
    intro fuel k out hev hend hfuel
    cases fuel with
    | zero => simp at hfuel
    | succ fuel =>
      have h0 : recv k = .ok e := by simpa using hev 0 e (by simp)
      have hev' : ∀ j e', es[j]? = some e' → recv (k + 1 + j) = .ok e' := by
        intro j e' hj
        have := hev (j + 1) e' (by simpa using hj)
        rw [show k + 1 + j = k + (j + 1) by omega]
        exact this
      have hend' : recv (k + 1 + es.length) = .error term := by
        rw [show k + 1 + es.length = k + (e :: es).length by simp; omega]
        exact hend
      have hfuel' : es.length < fuel := by simp at hfuel; omega
      simp only [recvLoop, h0]
      rw [ih fuel (k + 1) (out ++ [renderMessage e]) hev' hend' hfuel']
      simp

theorem recvLoop_not_nil (recv : Nat → Except Error CustomMessage) :
    ∀ (fuel k : Nat) (out out' : List (List Nat)),
      recvLoop recv fuel k out ≠ some (out', none) := by
  intro fuel
  induction fuel with
  | zero => intro k out out'; simp [recvLoop]
  | succ fuel ih =>
    intro k out out'
    simp only [recvLoop]
    cases h : recv k with
    | error err => simp
    | ok msg => exact ih _ _ _

theorem recvLoop_close (recv : Nat → Except Error CustomMessage) (term : Error) :
    ∀ (n fuel k : Nat) (out : List (List Nat)),
      (∀ j, j < n → ∃ m, recv (k + j) = .ok m) →
      recv (k + n) = .error term → n < fuel →
      ∃ out', recvLoop recv fuel k out = some (out', some term) ∧
        out'.length = out.length + n := by
  intro n
  induction n with
  | zero =>
    intro fuel k out _ hend hfuel
    cases fuel with
    | zero => simp at hfuel
    | succ fuel =>
      simp at hend
      exact ⟨out, by simp [recvLoop, hend], by simp⟩
  | succ n ih =>
    intro fuel k out hev hend hfuel
    cases fuel with
    | zero => simp at hfuel
    | succ fuel =>
      obtain ⟨m, hm⟩ := hev 0 (by omega)
      simp at hm
      have hev' : ∀ j, j < n → ∃ m, recv (k + 1 + j) = .ok m := by
        intro j hj
        rw [show k + 1 + j = k + (j + 1) by omega]
        exact hev (j + 1) (by omega)
      have hend' : recv (k + 1 + n) = .error term := by
        rw [show k + 1 + n = k + (n + 1) by omega]
        exact hend
      obtain ⟨out', hrun, hl⟩ := ih fuel (k + 1) (out ++ [renderMessage m]) hev' hend' (by omega)
      refine ⟨out', by simp only [recvLoop, hm, hrun], ?_⟩
      rw [hl]
      simp
      omega

/-- C9: when the subscription stream delivers the events `es` and then closes
with the signal `term`, `subscribeCustom` (given more loop iterations than there
are events) prints exactly one line per event, the k-th line rendering the peer
and the data of the k-th event in hex and its type in decimal, in arrival order,
and then returns `term`. -/
theorem subscribeCustom_prints_in_order (client : Client)
    (stream : Nat → Except Error CustomMessage) (es : List CustomMessage) (term : Error)
    (fuel : Nat) (hsub : client.SubscribeCustomMessages = .ok stream)
    (hev : ∀ k e, es[k]? = some e → stream k = .ok e)
    (hend : stream es.length = .error term) (hfuel : es.length < fuel) :
    subscribeCustom client fuel = some (es.map renderMessage, some term) ∧
    (es.map renderMessage).length = es.length ∧
    ∀ (k : Nat) (e : CustomMessage), es[k]? = some e →
      (es.map renderMessage)[k]? = some
        (goString "Received from peer " ++ hex.EncodeToString e.Peer
          ++ goString ": type=" ++ strconv.FormatUint e.MsgType
          ++ goString ", data=" ++ hex.EncodeToString e.Data ++ goString "\n") := by
  refine ⟨?_, by simp, ?_⟩
  · simp only [subscribeCustom, hsub]
    have := recvLoop_run stream term es fuel 0 []
      (by intro j e hj; simpa using hev j e hj) (by simpa using hend) hfuel
    simpa using this
  · intro k e hk
    simp [List.getElem?_map, hk, renderMessage]

/-- Witness for C9: three scripted events, then a plain end-of-stream. -/
theorem subscribeCustom_prints_in_order_witness :
    subscribeCustom scriptedClient 4 = some (sampleEvents.map renderMessage, some .EOF) :=
  (subscribeCustom_prints_in_order scriptedClient
    (fun k => match sampleEvents[k]? with
      | some e => .ok e
      | none => .error .EOF)
    sampleEvents .EOF 4 rfl (by intro k e hk; simp only [hk]) (by decide) (by decide)).1

/-- C10, as stated, fails: when the stream closes with a plain end-of-stream,
`subscribeCustom` returns that end-of-stream as its error, not success. -/
theorem subscribeCustom_eof_is_error :
    subscribeCustom acceptingClient 1 = some ([], some .EOF) ∧
    subscribeCustom acceptingClient 1 ≠ some ([], none) ∧
    subscribeCustom scriptedClient 4 = some (sampleEvents.map renderMessage, some .EOF) := by
  refine ⟨by decide, by decide, by decide⟩

/-- C10, amended: `subscribeCustom` makes no distinction between a plain
end-of-stream and a failure.  When the stream closes after `n` events with the
signal `term`, whatever it is, `subscribeCustom` (given more than `n` loop
iterations) returns `term` as its error after printing `n` lines; and it never
returns success. -/
theorem subscribeCustom_returns_close_signal (client : Client)
    (stream : Nat → Except Error CustomMessage) (n : Nat) (term : Error) (fuel : Nat)
    (hsub : client.SubscribeCustomMessages = .ok stream)
    (hev : ∀ k, k < n → ∃ m, stream k = .ok m)
    (hend : stream n = .error term) (hfuel : n < fuel) :
    (∃ out, subscribeCustom client fuel = some (out, some term) ∧ out.length = n) ∧
    ∀ fuel' out, subscribeCustom client fuel' ≠ some (out, none) := by
  constructor
  · simp only [subscribeCustom, hsub]
    obtain ⟨out, hrun, hl⟩ := recvLoop_close stream term n fuel 0 []
      (by intro j hj; simpa using hev j hj) (by simpa using hend) hfuel
    exact ⟨out, hrun, by simpa using hl⟩
  · intro fuel' out
    simp only [subscribeCustom, hsub]
    exact recvLoop_not_nil stream fuel' 0 [] out

/-- Witness for C10, amended: a stream that closes at once with a plain
end-of-stream. -/
theorem subscribeCustom_returns_close_signal_witness :
    (∃ out, subscribeCustom acceptingClient 1 = some (out, some .EOF) ∧ out.length = 0) ∧
    ∀ fuel' out, subscribeCustom acceptingClient fuel' ≠ some (out, none) :=
  subscribeCustom_returns_close_signal acceptingClient (fun _ => .error .EOF) 0 .EOF 1 rfl
    (by intro k hk; exact absurd hk (Nat.not_lt_zero k)) rfl (by decide)

end Lncli
